import Mathlib

/-!
Verification development for the minato data-access layer.

The definitions below are a shallow embedding of the repository's query
compiler (`Builder` in the shared sql-utils package), the SQLite and MySQL
driver routines (`prepare`, `remove`, `upsert`, the cast plugins, the
snapshot guards), translated from the TypeScript source.  JavaScript
strings are modelled by `String` (operations needing kernel evaluation are
re-implemented structurally over `List Char`), JavaScript dictionaries by
association lists in insertion order, and fallible compilation by
`Except String`.  The `escape` / `escapeId` primitives live in a `utils`
module that is not part of the sources; they are modelled from the spec
and are marked as such.
-/

/-- Join a list of strings with a separator, as JavaScript `Array.join`. -/
def joinSep (sep : String) : List String → String
  | [] => ""
  | [x] => x
  | x :: xs => x ++ sep ++ joinSep sep xs

/-- Modelled from the spec: `escape_id(name) → quoted_identifier`, backtick
wrapping (the repository's `utils` module is absent from the sources). -/
def escapeId (name : String) : String := "`" ++ name ++ "`"

/-- Runtime values flowing through the layer: SQL-able scalars, plus the
in-memory list and (already serialized) json forms used by the casters. -/
inductive Value where
  | vNull
  | vStr (s : String)
  | vInt (n : Int)
  | vBool (b : Bool)
  | vDate (ms : Int)
  | vList (xs : List String)
  | vJson (s : String)
deriving DecidableEq

/-- Double every single-quote character, the SQLite `escapeMap` rule. -/
def escQuotes : List Char → List Char
  | [] => []
  | c :: cs => if c = Char.ofNat 39 then c :: c :: escQuotes cs else c :: escQuotes cs

/-- Modelled from the spec: `escape_value` (the repository's `utils` module is
absent from the sources; §4.1: booleans to 0/1, dates to epoch-ms for the
SQLite dialect, null to NULL, strings wrapped in quotes, numbers verbatim). -/
def escape : Value → String
  | .vNull => "NULL"
  | .vStr s => "\x27" ++ String.mk (escQuotes s.data) ++ "\x27"
  | .vInt n => toString n
  | .vBool b => if b then "1" else "0"
  | .vDate ms => toString ms
  | .vList xs => "\x27" ++ String.mk (escQuotes (joinSep "," xs).data) ++ "\x27"
  | .vJson s => "\x27" ++ String.mk (escQuotes s.data) ++ "\x27"

/-- JavaScript truthiness of a `Value` (arrays and objects are truthy). -/
def Value.truthy : Value → Bool
  | .vNull => false
  | .vStr s => !s.isEmpty
  | .vInt n => n != 0
  | .vBool b => b
  | .vDate _ => true
  | .vList _ => true
  | .vJson _ => true

/-! ## Builder: logical reduction and elementary query fragments
Translated from `Builder` (sql-utils). -/

/-- Builder.logicalAnd: empty input gives "1", an input containing "0" gives
"0", otherwise the conditions joined with " AND ". -/
def logicalAnd (conditions : List String) : String :=
  if conditions.isEmpty then "1"
  else if conditions.contains "0" then "0"
  else joinSep " AND " conditions

/-- Builder.logicalOr: empty input gives "0", an input containing "1" gives
"1", otherwise the conditions joined with " OR " inside parentheses. -/
def logicalOr (conditions : List String) : String :=
  if conditions.isEmpty then "0"
  else if conditions.contains "1" then "1"
  else "(" ++ joinSep " OR " conditions ++ ")"

/-- Builder.logicalNot. -/
def logicalNot (condition : String) : String := "NOT(" ++ condition ++ ")"

/-- Builder.createNullQuery (the template leaves a double space, kept as is). -/
def createNullQuery (key : String) (value : Bool) : String :=
  key ++ " is " ++ (if value then "not " else "") ++ " null"

/-- Builder.createMemberQuery: empty membership lists collapse to the
constants "0" (for IN) and "1" (for NOT IN). -/
def createMemberQuery (key : String) (value : List Value) (notStr : String) : String :=
  if value.isEmpty then (if notStr != "" then "1" else "0")
  else key ++ notStr ++ " in (" ++ joinSep ", " (value.map escape) ++ ")"

/-- Builder.createRegExpQuery. -/
def createRegExpQuery (key : String) (source : String) : String :=
  key ++ " regexp " ++ escape (.vStr source)

/-- Builder.createElementQuery (base dialect). -/
def createElementQuery (key : String) (value : Value) : String :=
  "find_in_set(" ++ escape value ++ ", " ++ key ++ ")"

/-- Builder.comparator: the shared comparison template. -/
def comparator (op : String) (key : String) (value : Value) : String :=
  key ++ " " ++ op ++ " " ++ escape value

/-- Builder.createEqualQuery is the comparator specialised to `=`. -/
def createEqualQuery (key : String) (value : Value) : String := comparator "=" key value

/-! ## Query ASTs
`FieldQuery` models `Query.FieldExpr` (the shorthand forms plus an operator
object, whose properties are kept in insertion order); `QueryExpr` models
`Query.Expr`.  A property key that is not one of the documented operators is
modelled by the `unknownF` constructor.  Eval expressions under `$expr` are
abstracted by their compiled SQL fragment: none of the claims under study
descends into eval compilation (the path accessor `getRecursive` is embedded
separately below). -/

/-- Operand of the `$el` operator: an array of values or a single value. -/
inductive ElArg where
  | elems (vs : List Value)
  | scalar (v : Value)

mutual
inductive FieldQuery where
  | arr (vs : List Value)
  | regex (source : String)
  | lit (v : Value)
  | nullV
  | expr (ops : List FieldOp)
inductive FieldOp where
  | orF (qs : List FieldQuery)
  | andF (qs : List FieldQuery)
  | notF (q : FieldQuery)
  | existsF (b : Bool)
  | eqF (v : Value)
  | neF (v : Value)
  | gtF (v : Value)
  | gteF (v : Value)
  | ltF (v : Value)
  | lteF (v : Value)
  | inF (vs : List Value)
  | ninF (vs : List Value)
  | regexF (source : String)
  | regexForF (s : String)
  | bitsAllSet (v : Value)
  | bitsAllClear (v : Value)
  | bitsAnySet (v : Value)
  | bitsAnyClear (v : Value)
  | elF (a : ElArg)
  | sizeF (n : Nat)
  | unknownF (key : String)
end

/-- Whether a property key is outside the documented operator set. -/
def FieldOp.isUnknown : FieldOp → Bool
  | .unknownF _ => true
  | _ => false

mutual
/-- Builder.parseFieldQuery: dispatch on the shorthand forms, else compile the
operator object and conjoin the collected conditions. -/
def parseFieldQuery (key : String) : FieldQuery → Except String String
  | .arr vs => .ok (logicalAnd [createMemberQuery key vs ""])
  | .regex s => .ok (logicalAnd [createRegExpQuery key s])
  | .lit v => .ok (logicalAnd [createEqualQuery key v])
  | .nullV => .ok (logicalAnd [createNullQuery key false])
  | .expr ops =>
    match compileFieldOps key ops with
    | .error e => .error e
    | .ok conds => .ok (logicalAnd conds)

/-- The `for (const prop in query)` loop of parseFieldQuery: properties whose
key is in `queryOperators` contribute a condition, the rest are skipped. -/
def compileFieldOps (key : String) : List FieldOp → Except String (List String)
  | [] => .ok []
  | op :: rest =>
    match compileFieldOp key op with
    | .error e => .error e
    | .ok c =>
      match compileFieldOps key rest with
      | .error e => .error e
      | .ok cs => .ok (match c with | some s => s :: cs | none => cs)

/-- Builder.queryOperators: one compiled condition per recognised operator,
`none` for an unrecognised property key. -/
def compileFieldOp (key : String) : FieldOp → Except String (Option String)
  | .orF qs =>
    match parseFieldQueryList key qs with
    | .error e => .error e
    | .ok l => .ok (some (logicalOr l))
  | .andF qs =>
    match parseFieldQueryList key qs with
    | .error e => .error e
    | .ok l => .ok (some (logicalAnd l))
  | .notF q =>
    match parseFieldQuery key q with
    | .error e => .error e
    | .ok c => .ok (some (logicalNot c))
  | .existsF b => .ok (some (createNullQuery key b))
  | .eqF v => .ok (some (createEqualQuery key v))
  | .neF v => .ok (some (comparator "!=" key v))
  | .gtF v => .ok (some (comparator ">" key v))
  | .gteF v => .ok (some (comparator ">=" key v))
  | .ltF v => .ok (some (comparator "<" key v))
  | .lteF v => .ok (some (comparator "<=" key v))
  | .inF vs => .ok (some (createMemberQuery key vs ""))
  | .ninF vs => .ok (some (createMemberQuery key vs " NOT"))
  | .regexF s => .ok (some (createRegExpQuery key s))
  | .regexForF s => .ok (some (escape (.vStr s) ++ " REGEXP " ++ key))
  | .bitsAllSet v => .ok (some (key ++ " & " ++ escape v ++ " = " ++ escape v))
  | .bitsAllClear v => .ok (some (key ++ " & " ++ escape v ++ " = 0"))
  | .bitsAnySet v => .ok (some (key ++ " & " ++ escape v ++ " != 0"))
  | .bitsAnyClear v => .ok (some (key ++ " & " ++ escape v ++ " != " ++ escape v))
  | .elF (.elems vs) => .ok (some (logicalOr (vs.map (createElementQuery key))))
  | .elF (.scalar v) =>
    match v with
    | .vInt n => .ok (some (createElementQuery key (.vInt n)))
    | .vStr s => .ok (some (createElementQuery key (.vStr s)))
    | _ => .error "query expr under $el is not supported"
  | .sizeF n =>
    .ok (some (if n = 0 then logicalNot key else
      key ++ " AND LENGTH(" ++ key ++ ") - LENGTH(REPLACE(" ++ key ++ ", "
        ++ escape (.vStr ",") ++ ", " ++ escape (.vStr "") ++ ")) = "
        ++ escape (.vInt n) ++ " - 1"))
  | .unknownF _ => .ok none

/-- Mapping parseFieldQuery over the children of a field-level `$or`/`$and`. -/
def parseFieldQueryList (key : String) : List FieldQuery → Except String (List String)
  | [] => .ok []
  | q :: rest =>
    match parseFieldQuery key q with
    | .error e => .error e
    | .ok c =>
      match parseFieldQueryList key rest with
      | .error e => .error e
      | .ok cs => .ok (c :: cs)
end

mutual
inductive QueryEntry where
  | notQ (q : QueryExpr)
  | andQ (l : List QueryExpr)
  | orQ (l : List QueryExpr)
  | exprQ (sql : String)
  | fieldQ (key : String) (fq : FieldQuery)
inductive QueryExpr where
  | mk (entries : List QueryEntry)
end

mutual
/-- Builder.parseQuery: compile every entry of the query object and conjoin. -/
def parseQuery : QueryExpr → Except String String
  | .mk entries =>
    match parseQueryEntries entries with
    | .error e => .error e
    | .ok conds => .ok (logicalAnd conds)

/-- The `for (const key in query)` loop of parseQuery. -/
def parseQueryEntries : List QueryEntry → Except String (List String)
  | [] => .ok []
  | e :: rest =>
    match parseQueryEntry e with
    | .error err => .error err
    | .ok c =>
      match parseQueryEntries rest with
      | .error err => .error err
      | .ok cs => .ok (c :: cs)

/-- One entry of parseQuery: the reserved `$not`/`$and`/`$or`/`$expr` keys,
else a field query compiled against the escaped field name. -/
def parseQueryEntry : QueryEntry → Except String String
  | .notQ q =>
    match parseQuery q with
    | .error e => .error e
    | .ok c => .ok (logicalNot c)
  | .andQ l =>
    match parseQueryList l with
    | .error e => .error e
    | .ok cs => .ok (logicalAnd cs)
  | .orQ l =>
    match parseQueryList l with
    | .error e => .error e
    | .ok cs => .ok (logicalOr cs)
  | .exprQ sql => .ok sql
  | .fieldQ key fq => parseFieldQuery (escapeId key) fq

/-- Mapping parseQuery over the children of `$and`/`$or`. -/
def parseQueryList : List QueryExpr → Except String (List String)
  | [] => .ok []
  | q :: rest =>
    match parseQuery q with
    | .error e => .error e
    | .ok c =>
      match parseQueryList rest with
      | .error e => .error e
      | .ok cs => .ok (c :: cs)
end

/-! ## Claim C1 -/

/-- Claim C1: logicalAnd of the empty list is "1", logicalAnd of a list
containing "0" is "0", otherwise the children joined with " AND ";
logicalOr of the empty list is "0", logicalOr of a list containing "1" is
"1", otherwise the children joined with " OR " in parentheses; and
parseQuery of the empty query object yields "1". -/
theorem logical_reduction_normalized :
    logicalAnd [] = "1"
    ∧ (∀ cs : List String, "0" ∈ cs → logicalAnd cs = "0")
    ∧ (∀ cs : List String, cs ≠ [] → "0" ∉ cs → logicalAnd cs = joinSep " AND " cs)
    ∧ logicalOr [] = "0"
    ∧ (∀ cs : List String, "1" ∈ cs → logicalOr cs = "1")
    ∧ (∀ cs : List String, cs ≠ [] → "1" ∉ cs → logicalOr cs = "(" ++ joinSep " OR " cs ++ ")")
    ∧ parseQuery (.mk []) = .ok "1" := by
  refine ⟨rfl, ?_, ?_, rfl, ?_, ?_, ?_⟩
  · intro cs h
    simp only [logicalAnd, List.isEmpty_eq_true]
    rw [if_neg (by rintro rfl; simp at h), if_pos (by simpa using h)]
  · intro cs h1 h2
    simp only [logicalAnd, List.isEmpty_eq_true]
    rw [if_neg h1, if_neg (by simpa using h2)]
  · intro cs h
    simp only [logicalOr, List.isEmpty_eq_true]
    rw [if_neg (by rintro rfl; simp at h), if_pos (by simpa using h)]
  · intro cs h1 h2
    simp only [logicalOr, List.isEmpty_eq_true]
    rw [if_neg h1, if_neg (by simpa using h2)]
  · simp [parseQuery, parseQueryEntries, logicalAnd]

/-- Witness for C1: the hypothesis-bearing conjuncts instantiated at concrete
condition lists. -/
theorem logical_reduction_normalized_witness :
    logicalAnd ["a", "0"] = "0"
    ∧ logicalAnd ["a", "b"] = "a AND b"
    ∧ logicalOr ["1", "b"] = "1"
    ∧ logicalOr ["a", "b"] = "(a OR b)" := by
  refine ⟨?_, ?_, ?_, ?_⟩
  · exact logical_reduction_normalized.2.1 ["a", "0"] (by decide)
  · exact logical_reduction_normalized.2.2.1 ["a", "b"] (by decide) (by decide)
  · exact logical_reduction_normalized.2.2.2.2.1 ["1", "b"] (by decide)
  · exact logical_reduction_normalized.2.2.2.2.2.1 ["a", "b"] (by decide) (by decide)

/-! ## SQLite driver state and `remove` (claim C2) -/

/-- The observable SQLite driver state for one table: its rows plus the log
of statements issued through `#run`. -/
structure DBState where
  rows : List (List Value)
  log : List String

/-- SQLiteDriver.remove: compile the filter; when it reduces to "0" return
at once, otherwise run the DELETE statement.  The engine's effect of a
DELETE on the stored rows is an uninterpreted parameter `deleteEff`. -/
def sqliteRemove (table : String) (q : QueryExpr)
    (deleteEff : String → List (List Value) → List (List Value))
    (s : DBState) : Except String DBState :=
  match parseQuery q with
  | .error e => .error e
  | .ok filter =>
    if filter = "0" then .ok s
    else
      let sql := "DELETE FROM " ++ escapeId table ++ " WHERE " ++ filter
      .ok ⟨deleteEff sql s.rows, s.log ++ [sql]⟩

/-- Claim C2: whenever the compiled filter reduces to "0" the driver's
remove returns with no DELETE issued and the rows untouched; in particular
a field query with an empty `$in` array compiles to "0". -/
theorem remove_short_circuits_on_zero_filter
    (table : String) (q : QueryExpr)
    (deleteEff : String → List (List Value) → List (List Value))
    (s : DBState) (h : parseQuery q = .ok "0") :
    sqliteRemove table q deleteEff s = .ok s
    ∧ parseQuery (.mk [.fieldQ "id" (.expr [.inF []])]) = .ok "0" := by
  constructor
  · simp [sqliteRemove, h]
  · simp [parseQuery, parseQueryEntries, parseQueryEntry, parseFieldQuery,
      compileFieldOps, compileFieldOp, createMemberQuery, logicalAnd]

/-- Witness for C2: remove of the empty-`$in` query leaves a concrete
one-row table and its log unchanged. -/
theorem remove_short_circuits_on_zero_filter_witness :
    sqliteRemove "bar" (.mk [.fieldQ "id" (.expr [.inF []])])
      (fun _ rows => rows) ⟨[[Value.vInt 1]], []⟩ = .ok ⟨[[Value.vInt 1]], []⟩ :=
  (remove_short_circuits_on_zero_filter "bar" (.mk [.fieldQ "id" (.expr [.inF []])])
    (fun _ rows => rows) ⟨[[Value.vInt 1]], []⟩
    (by simp [parseQuery, parseQueryEntries, parseQueryEntry, parseFieldQuery,
      compileFieldOps, compileFieldOp, createMemberQuery, logicalAnd])).1

/-! ## Claim C10 -/

/-- Claim C10: for every field key, the field query with a single `$nin`
operator over the empty list compiles to the constant "1". -/
theorem nin_empty_list_is_one (key : String) :
    parseFieldQuery key (.expr [.ninF []]) = .ok "1" := by
  simp [parseFieldQuery, compileFieldOps, compileFieldOp, createMemberQuery, logicalAnd,
    joinSep]

/-! ## Claim C7 -/

/-- Counterexample to claim C7: a field query whose only property key is the
undocumented operator `$foo` is not rejected; compilation succeeds and
yields the constant "1" (the unknown key is silently skipped). -/
theorem unknown_operator_not_rejected :
    parseFieldQuery "`x`" (.expr [.unknownF "$foo"]) = .ok "1" := by
  simp [parseFieldQuery, compileFieldOps, compileFieldOp, logicalAnd]

/-- Helper congruence: one step of the operator loop only looks at the head. -/
theorem compileFieldOps_cons_congr (key : String) (op : FieldOp) {l1 l2 : List FieldOp}
    (h : compileFieldOps key l1 = compileFieldOps key l2) :
    compileFieldOps key (op :: l1) = compileFieldOps key (op :: l2) := by
  simp only [compileFieldOps]
  rw [h]

/-- Claim C7 as amended: property keys outside the documented operator set
are silently skipped by field-query compilation (compiling an operator list
equals compiling it with the unknown keys removed), while `$el` applied to
an operand that is neither a scalar (string or number) nor an array throws
synchronously at compile time. -/
theorem unknown_operator_skipped_and_el_throws :
    (∀ (key : String) (ops : List FieldOp),
      compileFieldOps key ops = compileFieldOps key (ops.filter (fun o => !o.isUnknown)))
    ∧ (∀ key : String,
      parseFieldQuery key (.expr [.elF (.scalar .vNull)])
        = .error "query expr under $el is not supported") := by
  constructor
  · intro key ops
    induction ops with
    | nil => rfl
    | cons op rest ih =>
      cases hop : op.isUnknown with
      | false =>
        rw [show (op :: rest).filter (fun o => !o.isUnknown)
            = op :: rest.filter (fun o => !o.isUnknown) by
          simp [List.filter_cons, hop]]
        exact compileFieldOps_cons_congr key op ih
      | true =>
        have hop' : ∃ k, op = FieldOp.unknownF k := by
          cases op <;> simp_all [FieldOp.isUnknown]
        obtain ⟨k, rfl⟩ := hop'
        rw [show (FieldOp.unknownF k :: rest).filter (fun o => !o.isUnknown)
            = rest.filter (fun o => !o.isUnknown) by
          simp [List.filter_cons, FieldOp.isUnknown], ← ih]
        simp only [compileFieldOps, compileFieldOp]
        cases compileFieldOps key rest <;> rfl
  · intro key
    simp [parseFieldQuery, compileFieldOps, compileFieldOp]

/-! ## Path accessor `getRecursive` (claim C8)

JavaScript string splitting and prefix tests are re-implemented structurally
over `List Char` so that concrete instances evaluate in the kernel. -/

/-- JavaScript `String.split(sep)` over character lists (`''.split(sep)`
gives `['']`). -/
def jsSplit (sep : Char) : List Char → List (List Char)
  | [] => [[]]
  | c :: rest =>
    match jsSplit sep rest with
    | [] => [[]]
    | h :: t => if c = sep then [] :: h :: t else (c :: h) :: t

/-- JavaScript `Array.join(sep)` over character lists. -/
def jsJoin (sep : Char) : List (List Char) → List Char
  | [] => []
  | [x] => x
  | x :: xs => x ++ sep :: jsJoin sep xs

/-- `key.split('.')[0]`, the fallback segment of getRecursive. -/
def strFirstSegment (key : String) : String :=
  String.mk ((jsSplit '.' key.data).headD [])

/-- The json-extraction emission shared by the accessor and its spec-side
descriptions: `json_unquote(json_extract(escapeId field, '$."a"."b"'))`
over the remainder of the path. -/
def emitJsonPath (field key : String) : String :=
  let rest := jsSplit '.' (key.data.drop (field.length + 1))
  "json_unquote(json_extract(" ++ escapeId field ++ ", \x27$"
    ++ joinSep "" (rest.map (fun p => ".\"" ++ String.mk p ++ "\"")) ++ "\x27))"

/-- Core of Builder.getRecursive once the table's field dictionary has been
looked up: declared field names or dot-free paths are escaped directly;
otherwise the first declared field `k` with `key.startsWith(k + '.')` is
chosen (`find` short-circuited through `||` with the first path segment). -/
def getRecursiveFields (fields : List String) (key : String) : String :=
  if fields.contains key || !(key.data.contains '.') then escapeId key
  else
    let found := fields.find? (fun k => List.isPrefixOf (k.data ++ [ '.' ]) key.data)
    let field :=
      match found with
      | some k => if k.isEmpty then strFirstSegment key else k
      | none => strFirstSegment key
    emitJsonPath field key

/-- The `this.tables[table]?.fields || {}` lookup (field dictionaries are
modelled by their key lists in declaration order). -/
def lookupFields (tables : List (String × List String)) (table : String) : List String :=
  match tables.find? (fun p => p.1 = table) with
  | some p => p.2
  | none => []

/-- Builder.getRecursive: a plain string key is looked up under the `_`
alias, a pair addresses an explicit table alias. -/
def getRecursive (tables : List (String × List String)) : String ⊕ String × String → String
  | .inl key => getRecursiveFields (lookupFields tables "_") key
  | .inr (t, k) => getRecursiveFields (lookupFields tables t) k

/-- Path accessor as the spec words it: split at the LONGEST declared-field
prefix (falling back to the first path segment when no declared field is a
dotted prefix). -/
def longestPrefixField (fields : List String) (key : String) : Option String :=
  (fields.filter (fun k => List.isPrefixOf (k.data ++ [ '.' ]) key.data)).foldl
    (fun acc k =>
      match acc with
      | none => some k
      | some b => if k.length > b.length then some k else some b) none

/-- Spec-side description of the path accessor (spec §4.3: declared field
names and dot-free paths escape directly, otherwise split at the longest
declared-field prefix). -/
def pathAccessorSpecLongest (fields : List String) (key : String) : String :=
  if fields.contains key || !(key.data.contains '.') then escapeId key
  else
    match longestPrefixField fields key with
    | some k => emitJsonPath k key
    | none => emitJsonPath (strFirstSegment key) key

/-- Amended description of the path accessor: split at the FIRST declared
field (in declaration order) that is a dotted prefix of the path, with the
first path segment as fallback (a declared empty field name also falls
back, through JavaScript `||`). -/
def pathAccessorSpecFirst (fields : List String) (key : String) : String :=
  if fields.contains key || !(key.data.contains '.') then escapeId key
  else
    match (fields.filter (fun k => List.isPrefixOf (k.data ++ [ '.' ]) key.data)).head? with
    | some k => if k.isEmpty then emitJsonPath (strFirstSegment key) key else emitJsonPath k key
    | none => emitJsonPath (strFirstSegment key) key

/-! ## SQLite cast plugins (claim C4) -/

/-- SQLite list plugin dump: `value.join(',')` (strings as char lists). -/
def sqliteListDump (value : List (List Char)) : List Char := jsJoin ',' value

/-- SQLite list plugin load: a truthy (non-empty) string splits on `','`,
a falsy one loads the empty array. -/
def sqliteListLoad (value : List Char) : List (List Char) :=
  if value.isEmpty then [] else jsSplit ',' value

/-- SQLite boolean plugin dump: `+value`. -/
def sqliteBoolDump (value : Bool) : Int := if value then 1 else 0

/-- SQLite boolean plugin load: `!!value`. -/
def sqliteBoolLoad (value : Int) : Bool := value != 0

/-! ## Supporting lemmas about the JavaScript split/join embeddings -/

/-- A split never produces the empty list of parts. -/
theorem jsSplit_ne_nil (sep : Char) (l : List Char) : jsSplit sep l ≠ [] := by
  cases l with
  | nil => simp [jsSplit]
  | cons c rest =>
    simp only [jsSplit]
    cases jsSplit sep rest with
    | nil => simp
    | cons h t =>
      by_cases hc : c = sep <;> simp [hc]

/-- Splitting a separator-free string yields that single part. -/
theorem jsSplit_eq_single (sep : Char) (x : List Char) (h : sep ∉ x) :
    jsSplit sep x = [x] := by
  induction x with
  | nil => rfl
  | cons c cs ih =>
    have hc : c ≠ sep := by rintro rfl; exact h (List.mem_cons_self c cs)
    have hcs : sep ∉ cs := fun hm => h (List.mem_cons_of_mem c hm)
    simp [jsSplit, ih hcs, hc]

/-- Splitting past a separator-free head peels off exactly that head. -/
theorem jsSplit_append_sep (sep : Char) (x rest : List Char) (h : sep ∉ x) :
    jsSplit sep (x ++ sep :: rest) = x :: jsSplit sep rest := by
  induction x with
  | nil =>
    simp only [List.nil_append, jsSplit]
    cases hs : jsSplit sep rest with
    | nil => exact absurd hs (jsSplit_ne_nil sep rest)
    | cons h t => simp
  | cons c cs ih =>
    have hc : c ≠ sep := by rintro rfl; exact h (List.mem_cons_self c cs)
    have hcs : sep ∉ cs := fun hm => h (List.mem_cons_of_mem c hm)
    have hstep : jsSplit sep ((c :: cs) ++ sep :: rest)
        = match jsSplit sep (cs ++ sep :: rest) with
          | [] => [[]]
          | h :: t => if c = sep then [] :: h :: t else (c :: h) :: t := rfl
    rw [hstep, ih hcs]
    simp [hc]

/-- Splitting a join of separator-free parts recovers the parts. -/
theorem jsSplit_jsJoin (sep : Char) (ys : List (List Char)) (h0 : ys ≠ [])
    (h : ∀ y ∈ ys, sep ∉ y) : jsSplit sep (jsJoin sep ys) = ys := by
  induction ys with
  | nil => exact absurd rfl h0
  | cons y ys ih =>
    cases ys with
    | nil => exact jsSplit_eq_single sep y (h y (List.mem_cons_self y []))
    | cons z zs =>
      have htail : ∀ w ∈ z :: zs, sep ∉ w := fun w hw => h w (List.mem_cons_of_mem y hw)
      calc jsSplit sep (jsJoin sep (y :: z :: zs))
          = jsSplit sep (y ++ sep :: jsJoin sep (z :: zs)) := rfl
        _ = y :: jsSplit sep (jsJoin sep (z :: zs)) :=
            jsSplit_append_sep sep y _ (h y (List.mem_cons_self y _))
        _ = y :: z :: zs := by rw [ih (by simp) htail]

/-! ## Claim C4 -/

/-- Counterexample to claim C4: the string array `["a,b"]` does not survive
the list plugin's dump/load cycle; it comes back as `["a","b"]`. -/
theorem list_cast_round_trip_cex :
    sqliteListLoad (sqliteListDump [[ 'a', ',', 'b' ]]) = [[ 'a' ], [ 'b' ]]
    ∧ sqliteListLoad (sqliteListDump [[ 'a', ',', 'b' ]]) ≠ [[ 'a', ',', 'b' ]] := by
  constructor <;> decide

/-- Claim C4 as amended: the boolean plugin round-trips every boolean, and
the list plugin round-trips exactly the string arrays whose elements are
comma-free, other than the singleton empty-string array (which dumps to the
falsy "" and loads back as the empty array). -/
theorem cast_round_trip_amended :
    (∀ b : Bool, sqliteBoolLoad (sqliteBoolDump b) = b)
    ∧ (∀ xs : List (List Char), (∀ x ∈ xs, ',' ∉ x) → xs ≠ [[]] →
        sqliteListLoad (sqliteListDump xs) = xs) := by
  constructor
  · intro b
    cases b <;> rfl
  · intro xs hcf hne
    cases xs with
    | nil => rfl
    | cons x ys =>
      have hjoin : sqliteListDump (x :: ys) ≠ [] := by
        cases ys with
        | nil =>
          have hx : x ≠ [] := by rintro rfl; exact hne rfl
          simpa [sqliteListDump, jsJoin] using hx
        | cons z zs => simp [sqliteListDump, jsJoin]
      rw [sqliteListLoad, if_neg (by simpa [List.isEmpty_eq_true] using hjoin)]
      exact jsSplit_jsJoin ',' (x :: ys) (by simp) hcf

/-- Witness for C4 (amended): the spec's example list round-trips. -/
theorem cast_round_trip_amended_witness :
    sqliteListLoad (sqliteListDump [[ '1' ], [ '1' ], [ '4' ]]) = [[ '1' ], [ '1' ], [ '4' ]]
    ∧ sqliteBoolLoad (sqliteBoolDump true) = true :=
  ⟨cast_round_trip_amended.2 [[ '1' ], [ '1' ], [ '4' ]] (by decide) (by decide),
   cast_round_trip_amended.1 true⟩

/-! ## Claim C8 -/

/-- Counterexample to claim C8: with declared fields `a` and `a.b` (in that
order), the path `a.b.c` is split at `a` — the FIRST declared prefix — not
at the longest declared prefix `a.b` that the spec prescribes. -/
theorem path_accessor_longest_prefix_cex :
    getRecursive [("_", ["a", "a.b"])] (.inl "a.b.c")
      = "json_unquote(json_extract(`a`, \x27$.\"b\".\"c\"\x27))"
    ∧ pathAccessorSpecLongest ["a", "a.b"] "a.b.c"
      = "json_unquote(json_extract(`a.b`, \x27$.\"c\"\x27))"
    ∧ getRecursive [("_", ["a", "a.b"])] (.inl "a.b.c")
      ≠ pathAccessorSpecLongest ["a", "a.b"] "a.b.c" := by
  refine ⟨by decide, by decide, by decide⟩

/-- Two separator-free words that both extend (with a dot) to a prefix of
the same path are equal. -/
theorem dotfree_prefix_unique {key : List Char} {k1 k2 : List Char}
    (hd1 : '.' ∉ k1) (hd2 : '.' ∉ k2)
    (h1 : (k1 ++ [ '.' ]) <+: key) (h2 : (k2 ++ [ '.' ]) <+: key) : k1 = k2 := by
  have aux : ∀ {a b : List Char}, '.' ∉ b → (a ++ [ '.' ]) <+: (b ++ [ '.' ]) → a = b := by
    intro a b hb hab
    have hlen : a.length + 1 ≤ b.length + 1 := by
      have := hab.length_le
      simpa using this
    rcases Nat.lt_or_ge a.length b.length with hlt | hge
    · exfalso
      have htake := List.prefix_iff_eq_take.mp hab
      rw [List.take_append_of_le_length (by simp; omega)] at htake
      have hmem : ('.' : Char) ∈ b.take (a ++ [ '.' ]).length := by
        rw [← htake]; simp
      exact hb (List.take_subset _ b hmem)
    · have heq : (a ++ [ '.' ]).length = (b ++ [ '.' ]).length := by
        simp
        omega
      have := hab.eq_of_length heq
      simpa using this
  rcases List.prefix_or_prefix_of_prefix h1 h2 with h | h
  · exact aux hd2 h
  · exact (aux hd1 h).symm

/-- Folding the longest-selection over a constant list keeps the constant. -/
theorem longest_fold_const (c : String) (cs : List String) (h : ∀ x ∈ cs, x = c) :
    cs.foldl (fun acc k =>
      match acc with
      | none => some k
      | some b => if k.length > b.length then some k else some b) (some c) = some c := by
  induction cs with
  | nil => rfl
  | cons x rest ih =>
    have hx : x = c := h x (List.mem_cons_self x rest)
    subst hx
    simp only [List.foldl_cons, gt_iff_lt, lt_irrefl, if_false]
    exact ih (fun y hy => h y (List.mem_cons_of_mem x hy))

/-- A declared empty field name can only be a candidate when the path starts
with a dot, in which case the fallback first segment is also empty. -/
theorem empty_candidate_first_segment {key : String}
    (h : List.isPrefixOf (("" : String).data ++ [ '.' ]) key.data = true) :
    strFirstSegment key = "" := by
  have hpre : [ '.' ] <+: key.data := by
    simpa using List.isPrefixOf_iff_prefix.mp h
  obtain ⟨t, ht⟩ := hpre
  have hk : key.data = '.' :: t := ht.symm
  have hsplit : jsSplit '.' key.data
      = [] :: (jsSplit '.' t).headD [] :: (jsSplit '.' t).tailD [] := by
    rw [hk]
    cases hs : jsSplit '.' t with
    | nil => exact absurd hs (jsSplit_ne_nil '.' t)
    | cons a b => simp [jsSplit, hs]
  simp [strFirstSegment, hsplit]

/-- Claim C8 as amended: the path accessor emits the escaped identifier for
declared field names and dot-free paths, and otherwise splits at the FIRST
declared field (in declaration order) that is a dotted prefix of the path,
falling back to the first path segment; when no declared field name
contains a dot this coincides with the spec's longest-prefix description. -/
theorem path_accessor_splits_at_first_prefix :
    (∀ (fields : List String) (key : String),
      getRecursiveFields fields key = pathAccessorSpecFirst fields key)
    ∧ (∀ (fields : List String) (key : String),
      (∀ k ∈ fields, '.' ∉ k.data) →
      getRecursiveFields fields key = pathAccessorSpecLongest fields key) := by
  constructor
  · intro fields key
    unfold getRecursiveFields pathAccessorSpecFirst
    rw [List.filter_head?]
    by_cases hesc : (fields.contains key || !key.data.contains '.') = true
    · rw [if_pos hesc, if_pos hesc]
    · rw [if_neg hesc, if_neg hesc]
      cases hf : fields.find? (fun k => List.isPrefixOf (k.data ++ [ '.' ]) key.data) with
      | none => rfl
      | some k =>
        by_cases hk : k.isEmpty = true
        · simp [hk]
        · simp [hk]
  · intro fields key hdf
    unfold getRecursiveFields pathAccessorSpecLongest longestPrefixField
    by_cases hesc : (fields.contains key || !key.data.contains '.') = true
    · rw [if_pos hesc, if_pos hesc]
    · rw [if_neg hesc, if_neg hesc]
      cases hC : fields.filter (fun k => List.isPrefixOf (k.data ++ [ '.' ]) key.data) with
      | nil =>
        have hfind : fields.find? (fun k => List.isPrefixOf (k.data ++ [ '.' ]) key.data) = none := by
          rw [← List.filter_head?, hC]
          rfl
        rw [hfind]
        rfl
      | cons c cs =>
        have hfind : fields.find? (fun k => List.isPrefixOf (k.data ++ [ '.' ]) key.data) = some c := by
          rw [← List.filter_head?, hC]
          rfl
        have hmemf : ∀ x ∈ fields.filter (fun k => List.isPrefixOf (k.data ++ [ '.' ]) key.data),
            x = c := by
          intro x hx
          have hcin : c ∈ fields.filter (fun k => List.isPrefixOf (k.data ++ [ '.' ]) key.data) := by
            rw [hC]
            exact List.mem_cons_self c cs
          rw [List.mem_filter] at hx hcin
          have hx2 := List.isPrefixOf_iff_prefix.mp hx.2
          have hc2 := List.isPrefixOf_iff_prefix.mp hcin.2
          have hdata := dotfree_prefix_unique (hdf x hx.1) (hdf c hcin.1) hx2 hc2
          exact congrArg String.mk hdata
        have hfold : (c :: cs).foldl (fun acc k =>
            match acc with
            | none => some k
            | some b => if k.length > b.length then some k else some b) none = some c := by
          have htl : ∀ y ∈ cs, y = c := fun y hy =>
            hmemf y (by rw [hC]; exact List.mem_cons_of_mem c hy)
          simpa using longest_fold_const c cs htl
        rw [hfind, hfold]
        by_cases hce : c.isEmpty = true
        · have hc0 : c = "" := by
            cases c with
            | mk l =>
              cases l with
              | nil => rfl
              | cons a b =>
                exfalso
                simp only [String.isEmpty, String.endPos, String.utf8ByteSize] at hce
                rw [beq_iff_eq] at hce
                have hb := congrArg String.Pos.byteIdx hce
                simp at hb
                have := Char.utf8Size_pos a
                omega
          subst hc0
          have hcin : "" ∈ fields.filter (fun k => List.isPrefixOf (k.data ++ [ '.' ]) key.data) := by
            rw [hC]
            exact List.mem_cons_self _ cs
          rw [List.mem_filter] at hcin
          simp only [hce, if_true]
          rw [empty_candidate_first_segment hcin.2]
        · simp [hce]

/-- Witness for C8 (amended): the dot-free coincidence conjunct applied at a
concrete table. -/
theorem path_accessor_splits_at_first_prefix_witness :
    getRecursiveFields ["id", "meta"] "meta.color"
      = pathAccessorSpecLongest ["id", "meta"] "meta.color" :=
  path_accessor_splits_at_first_prefix.2 ["id", "meta"] "meta.color" (by decide)

/-! ## Upsert update-field selection (claim C6) -/

/-- cosmokit `difference(a, b)` (external library): the elements of `a` not
contained in `b`, in order. -/
def difference (a b : List String) : List String := a.filter (fun x => !b.contains x)

/-- SQLiteDriver.upsert's update-field selection: `dataFields − keys`, with
`[dataFields[0]]` as fallback when the difference is empty. -/
def sqliteUpsertUpdateFields (dataFields keys : List String) : List String :=
  let updateFields := difference dataFields keys
  if updateFields.isEmpty then [dataFields.headD ""] else updateFields

/-- MySQLDriver.upsert's update-field selection: the plain difference, with
no fallback. -/
def mysqlUpsertUpdateFields (dataFields keys : List String) : List String :=
  difference dataFields keys

/-- Counterexample to claim C6: when every data field is also a match key
the MySQL strategy keeps the empty difference instead of falling back to
`[dataFields[0]]` as the SQLite strategy (and the claim) has it. -/
theorem upsert_update_fields_cex :
    mysqlUpsertUpdateFields ["id"] ["id"] = []
    ∧ sqliteUpsertUpdateFields ["id"] ["id"] = ["id"]
    ∧ mysqlUpsertUpdateFields ["id"] ["id"] ≠ sqliteUpsertUpdateFields ["id"] ["id"] := by
  refine ⟨by decide, by decide, by decide⟩

/-- Claim C6 as amended: both strategies compute `dataFields − keys`, but
only the SQLite driver falls back to `[dataFields[0]]` when the difference
is empty (so only its update list is always non-empty); the MySQL driver
keeps the empty difference. -/
theorem upsert_update_fields_amended (dataFields keys : List String)
    (_h : dataFields ≠ []) :
    sqliteUpsertUpdateFields dataFields keys ≠ []
    ∧ (difference dataFields keys ≠ [] →
        sqliteUpsertUpdateFields dataFields keys = difference dataFields keys
        ∧ mysqlUpsertUpdateFields dataFields keys = difference dataFields keys)
    ∧ (difference dataFields keys = [] →
        sqliteUpsertUpdateFields dataFields keys = [dataFields.headD ""]
        ∧ mysqlUpsertUpdateFields dataFields keys = []) := by
  refine ⟨?_, ?_, ?_⟩
  · by_cases hd : (difference dataFields keys).isEmpty = true
    · simp [sqliteUpsertUpdateFields, hd]
    · simp only [sqliteUpsertUpdateFields, hd, if_false]
      simpa [List.isEmpty_eq_true] using hd
  · intro hd
    constructor
    · simp [sqliteUpsertUpdateFields, List.isEmpty_eq_true, hd]
    · rfl
  · intro hd
    constructor
    · simp [sqliteUpsertUpdateFields, List.isEmpty_eq_true, hd]
    · simpa [mysqlUpsertUpdateFields] using hd

/-- Witness for C6 (amended): concrete data fields `id, text` with match
key `id` give the update list `[text]` in both strategies. -/
theorem upsert_update_fields_amended_witness :
    sqliteUpsertUpdateFields ["id", "text"] ["id"] = ["text"]
    ∧ mysqlUpsertUpdateFields ["id", "text"] ["id"] = ["text"] := by
  have h := upsert_update_fields_amended ["id", "text"] ["id"] (by decide)
  have hd := h.2.1 (by decide)
  exact ⟨by rw [hd.1]; decide, by rw [hd.2]; decide⟩

/-! ## SQLite snapshot gates (claim C9) -/

/-- SQLiteDriver.load: the file read at start is skipped exactly for the
`":memory:"` path (`if (this.config.path === ':memory:') return null`). -/
def sqliteLoadReadsFile (path : String) : Bool := path != ":memory:"

/-- SQLiteDriver `#run`: a debounced snapshot write task is scheduled after
a mutating statement whenever `this.config.path` is truthy, that is, for
every non-empty path string — including `":memory:"`. -/
def sqliteRunSchedulesWrite (path : String) : Bool := path != ""

/-- Claim C9 against the code: with path `":memory:"` no file read happens
at start, but `#run` still schedules a snapshot write after a mutation
(the guard tests only truthiness of the path), contradicting the spec's
"`":memory:"` bypasses the snapshot step"; ordinary paths behave as
specified. -/
theorem memory_path_still_schedules_write :
    sqliteLoadReadsFile ":memory:" = false
    ∧ sqliteRunSchedulesWrite ":memory:" = true
    ∧ sqliteLoadReadsFile "app.db" = true
    ∧ sqliteRunSchedulesWrite "app.db" = true := by
  refine ⟨by decide, by decide, by decide, by decide⟩

/-! ## Schema synchronizer (claims C3 and C5)

The SQLite `prepare` routine is embedded as a pure function from the
declared model and the live table (columns as reported by
`PRAGMA table_info`, rows positional) to the list of DDL statements issued
and the resulting live table.  The MySQL `prepare` routine is embedded as a
function to the list of DDL statements issued. -/

inductive FieldType where
  | primary | boolean | integer | unsigned | float | double | decimal
  | char | string | text | list | json | date | time | timestamp
deriving DecidableEq

/-- getTypeDef (SQLite driver). -/
def getTypeDef : FieldType → String
  | .primary | .boolean | .integer | .unsigned | .date | .time | .timestamp => "INTEGER"
  | .float | .double | .decimal => "REAL"
  | .char | .string | .text | .list | .json => "TEXT"

/-- A declared field: type plus the optional descriptors `prepare` reads. -/
structure FieldDef where
  type : FieldType
  deprecated : Bool := false
  legacy : List String := []
  nullable : Bool := true
  initial : Option Value := none
  length : Option Nat := none
  precision : Option Nat := none
  scale : Option Nat := none
deriving DecidableEq

/-- A `string | string[]` model descriptor (primary key, unique groups). -/
inductive StrOrList where
  | one (s : String)
  | many (l : List String)
deriving DecidableEq

/-- cosmokit `makeArray` (external library). -/
def StrOrList.toList : StrOrList → List String
  | .one s => [s]
  | .many l => l

/-- JavaScript truthiness: the empty string is falsy, arrays are truthy. -/
def StrOrList.truthy : StrOrList → Bool
  | .one s => !s.isEmpty
  | .many _ => true

/-- A declared model, fields in declaration order. -/
structure ModelDef where
  fields : List (String × FieldDef)
  primary : StrOrList
  autoInc : Bool := false
  unique : List StrOrList := []
  foreign : List (String × String × String) := []
deriving DecidableEq

/-- Dump of one field value through the SQLite cast plugins (the `define`
blocks of SQLiteBuilder; the shared `Builder.dump` wrapper that applies
them per field is absent from the sources and modelled from the spec). -/
def dumpValue (t : FieldType) (v : Value) : Value :=
  match t, v with
  | .boolean, .vBool b => .vInt (sqliteBoolDump b)
  | .json, .vJson s => .vStr s
  | .list, .vList xs => .vStr (joinSep "," xs)
  | .date, .vDate ms => .vInt ms
  | .time, .vDate ms => .vInt ms
  | .timestamp, .vDate ms => .vInt ms
  | .date, .vNull => .vNull
  | .time, .vNull => .vNull
  | .timestamp, .vNull => .vNull
  | _, v => v

/-- One declared column definition of SQLiteDriver.prepare. -/
def sqliteColDef (model : ModelDef) (key : String) (f : FieldDef) : String :=
  let typedef := getTypeDef f.type
  let d := escapeId key ++ " " ++ typedef
  if (model.primary == StrOrList.one key) && model.autoInc then
    d ++ " NOT NULL PRIMARY KEY AUTOINCREMENT"
  else
    let d := d ++ (if f.nullable then " " else " NOT ") ++ "NULL"
    match f.initial with
    | none => d
    | some Value.vNull => d
    | some v => d ++ " DEFAULT " ++ escape (dumpValue f.type v)

/-- A live column as reported by `PRAGMA table_info`. -/
structure LiveCol where
  name : String
  type : String
  notnull : Bool
  dflt : Option String
  pk : Bool
deriving DecidableEq

/-- Accumulator of the field-definition loop of SQLiteDriver.prepare. -/
structure ScanOut where
  columnDefs : List String
  alter : List String
  mapping : List (String × String)
  shouldMigrate : Bool
deriving DecidableEq

/-- The field-definition loop of SQLiteDriver.prepare: for each declared
field, search the live columns for its name or any declared legacy alias;
a miss schedules ADD, a hit maps the live name to the declared name and
schedules migration when name or declared type differ.  Deprecated fields
are skipped (they force migration only when listed in `dropKeys`). -/
def fieldScan (model : ModelDef) (columns : List LiveCol) (dropKeys : Option (List String)) :
    List (String × FieldDef) → ScanOut
  | [] => ⟨[], [], [], false⟩
  | (key, f) :: rest =>
    let out := fieldScan model columns dropKeys rest
    if f.deprecated then
      { out with shouldMigrate :=
          (match dropKeys with
          | some ks => ks.contains key
          | none => false) || out.shouldMigrate }
    else
      let legacy := key :: f.legacy
      let column := columns.find? (fun c => legacy.contains c.name)
      let d := sqliteColDef model key f
      match column with
      | none =>
        { columnDefs := d :: out.columnDefs, alter := ("ADD " ++ d) :: out.alter,
          mapping := out.mapping, shouldMigrate := out.shouldMigrate }
      | some c =>
        { columnDefs := d :: out.columnDefs, alter := out.alter,
          mapping := (c.name, key) :: out.mapping,
          shouldMigrate := (c.name != key || c.type != getTypeDef f.type) || out.shouldMigrate }

/-- SQLiteDriver `#joinKeys`. -/
def sqliteJoinKeys (keys : List String) : String :=
  if keys.isEmpty then "*" else joinSep ", " (keys.map (fun k => "`" ++ k ++ "`"))

/-- The index definitions of SQLiteDriver.prepare. -/
def sqliteIndexDefs (model : ModelDef) : List String :=
  (if model.primary.truthy && !model.autoInc then
    ["PRIMARY KEY (" ++ sqliteJoinKeys model.primary.toList ++ ")"]
  else [])
  ++ model.unique.map (fun ks => "UNIQUE (" ++ sqliteJoinKeys ks.toList ++ ")")
  ++ model.foreign.map (fun p =>
      "FOREIGN KEY (`" ++ p.1 ++ "`) REFERENCES " ++ escapeId p.2.1
        ++ " (`" ++ p.2.2 ++ "`)")

/-- The non-deprecated declared fields. -/
def activeFields (model : ModelDef) : List (String × FieldDef) :=
  model.fields.filter (fun p => !p.2.deprecated)

/-- The `PRAGMA table_info` row of a freshly created declared column:
declared type text, NOT NULL for non-nullable or auto-increment primary
columns, the declared default literal, the primary-key flag. -/
def declaredLiveCol (model : ModelDef) (key : String) (f : FieldDef) : LiveCol :=
  { name := key
    type := getTypeDef f.type
    notnull := ((model.primary == StrOrList.one key) && model.autoInc) || !f.nullable
    dflt :=
      match f.initial with
      | none => none
      | some Value.vNull => none
      | some v => some (escape (dumpValue f.type v))
    pk := model.primary.toList.contains key }

/-- The live columns of the table CREATE TABLE produces. -/
def createdCols (model : ModelDef) : List LiveCol :=
  (activeFields model).map (fun p => declaredLiveCol model p.1 p.2)

/-- The preserve-old-columns loop of the migration branch: live columns
neither mapped nor dropped are carried over verbatim (definition text and
identity mapping entry). -/
def preserveScan (mapping0 : List (String × String)) (dropKeys : List String) :
    List LiveCol → List String × List (String × String)
  | [] => ([], [])
  | c :: rest =>
    let (ds, ms) := preserveScan mapping0 dropKeys rest
    if mapping0.any (fun p => p.1 == c.name) || dropKeys.contains c.name then (ds, ms)
    else
      let d := escapeId c.name ++ " " ++ c.type
        ++ (if c.notnull then " NOT " else " ") ++ "NULL"
        ++ (if c.pk then " PRIMARY KEY" else "")
        ++ (match c.dflt with | none => "" | some v => " DEFAULT " ++ escape (.vStr v))
      (d :: ds, (c.name, c.name) :: ms)

/-- A live table: columns plus positional rows. -/
structure LiveTable where
  cols : List LiveCol
  rows : List (List Value)
deriving DecidableEq

/-- The value a positional SELECT of column `name` reads from a row. -/
def selectValue (cols : List LiveCol) (row : List Value) (name : String) : Value :=
  match (cols.zip row).find? (fun p => p.1.name == name) with
  | some p => p.2
  | none => .vNull

/-- The columns of the rebuilt table: declared columns first, then the
preserved unmapped live columns. -/
def migratedCols (model : ModelDef) (mapping0 : List (String × String))
    (dropKeys : List String) (cols : List LiveCol) : List LiveCol :=
  createdCols model ++ cols.filter (fun c =>
    !(mapping0.any (fun p => p.1 == c.name) || dropKeys.contains c.name))

/-- The table after the additive ALTER branch: missing declared columns are
appended, rows padded with the dumped initial (or NULL). -/
def alteredTable (model : ModelDef) (t : LiveTable) : LiveTable :=
  let missing := (activeFields model).filter (fun p =>
    (t.cols.find? (fun c => (p.1 :: p.2.legacy).contains c.name)).isNone)
  { cols := t.cols ++ missing.map (fun p => declaredLiveCol model p.1 p.2)
    rows := t.rows.map (fun r => r ++ missing.map (fun p =>
      match p.2.initial with
      | none => Value.vNull
      | some Value.vNull => Value.vNull
      | some v => dumpValue p.2.type v)) }

/-- SQLiteDriver.prepare: no live columns issues CREATE TABLE; a live/declared
mismatch rebuilds through a temp table (CREATE, INSERT-SELECT over the
mapping, DROP, RENAME — a SELECT whose width differs from the temp table
makes the engine fail the INSERT, modelled as an error); otherwise missing
columns are ADDed one ALTER at a time; and a fully synchronized table
issues nothing. -/
def prepareSQLite (model : ModelDef) (table : String) (dropKeys : Option (List String))
    (t : LiveTable) : Except String (List String × LiveTable) :=
  let scan := fieldScan model t.cols dropKeys model.fields
  let idx := sqliteIndexDefs model
  if t.cols.isEmpty then
    .ok (["CREATE TABLE " ++ escapeId table ++ " ("
        ++ joinSep ", " (scan.columnDefs ++ idx) ++ ")"],
      ⟨createdCols model, []⟩)
  else if scan.shouldMigrate then
    let dk := dropKeys.getD []
    let pres := preserveScan scan.mapping dk t.cols
    let columnDefs := scan.columnDefs ++ pres.1
    let mapping := scan.mapping ++ pres.2
    let temp := table ++ "_temp"
    if mapping.length = columnDefs.length then
      .ok (["CREATE TABLE " ++ escapeId temp ++ " ("
            ++ joinSep ", " (columnDefs ++ idx) ++ ")",
          "INSERT INTO " ++ escapeId temp ++ " SELECT "
            ++ joinSep ", " (mapping.map (fun p => escapeId p.1)) ++ " FROM " ++ escapeId table,
          "DROP TABLE " ++ escapeId table,
          "ALTER TABLE " ++ escapeId temp ++ " RENAME TO " ++ escapeId table],
        ⟨migratedCols model scan.mapping dk t.cols,
         t.rows.map (fun r => mapping.map (fun p => selectValue t.cols r p.1))⟩)
    else .error "migration SELECT width differs from the temp table"
  else if !scan.alter.isEmpty then
    .ok (scan.alter.map (fun d => "ALTER TABLE " ++ escapeId table ++ " " ++ d),
      alteredTable model t)
  else
    .ok ([], t)

/-! MySQL side. -/

/-- One live column of `information_schema.columns`. -/
structure MyCol where
  name : String
  dataType : String
deriving DecidableEq

/-- MySQL `backtick`. -/
def backtick (str : String) : String := "`" ++ str ++ "`"

/-- MySQL `createIndex`. -/
def createIndex (keys : List String) : String := joinSep ", " (keys.map backtick)

/-- MySQL getIntegerType (default length 11). -/
def getIntegerType (length : Option Nat) : String :=
  let l := length.getD 11
  if l ≤ 4 then "tinyint"
  else if l ≤ 6 then "smallint"
  else if l ≤ 9 then "mediumint"
  else if l ≤ 11 then "int"
  else "bigint"

/-- JavaScript `x || d` over an optional numeric descriptor (0 is falsy). -/
def jsOrNat (o : Option Nat) (d : Nat) : Nat :=
  match o with
  | some n => if n = 0 then d else n
  | none => d

/-- JavaScript string interpolation of a possibly-undefined number. -/
def optNatStr : Option Nat → String
  | some n => toString n
  | none => "undefined"

/-- MySQL getTypeDefinition; the types its switch does not cover (primary,
boolean) interpolate as JavaScript `undefined`. -/
def getTypeDefinition (f : FieldDef) : String :=
  match f.type with
  | .float => "float"
  | .double => "double"
  | .date => "date"
  | .time => "time"
  | .timestamp => "datetime"
  | .integer => getIntegerType f.length
  | .unsigned => getIntegerType f.length ++ " unsigned"
  | .decimal => "decimal(" ++ optNatStr f.precision ++ ", " ++ optNatStr f.scale ++ ") unsigned"
  | .char => "char(" ++ toString (jsOrNat f.length 255) ++ ")"
  | .string => "varchar(" ++ toString (jsOrNat f.length 255) ++ ")"
  | .text => "text(" ++ toString (jsOrNat f.length 65535) ++ ")"
  | .list => "text(" ++ toString (jsOrNat f.length 65535) ++ ")"
  | .json => "text(" ++ toString (jsOrNat f.length 65535) ++ ")"
  | .primary => "undefined"
  | .boolean => "undefined"

/-- MySQLBuilder.stringify: json and list values render as their text forms
(dates go through the external cosmokit time template, modelled here by
their numeric value). -/
def mysqlStringify (t : FieldType) (v : Value) : Value :=
  match t, v with
  | .json, .vJson s => .vStr s
  | .list, .vList xs => .vStr (joinSep "," xs)
  | _, v => v

/-- Modelled from the spec: the external mysql `escape` applied to a
stringified value (§4.1; the library is not part of the sources). -/
def mysqlEscape (t : FieldType) (v : Value) : String := escape (mysqlStringify t v)

/-- One declared column definition of MySQLDriver._getColDefs. -/
def mysqlColDef (model : ModelDef) (key : String) (f : FieldDef) : String :=
  let d := backtick key
  if (model.primary == StrOrList.one key) && model.autoInc then
    d ++ " int unsigned not null auto_increment"
  else
    let typedef := getTypeDefinition f
    let d := d ++ " " ++ typedef
    let d := d ++ (if model.primary.toList.contains key then " not null"
      else if f.nullable then " null" else " not null")
    match f.initial with
    | some v =>
      if v.truthy && !(List.isPrefixOf "text".data typedef.data) then
        d ++ " default " ++ mysqlEscape f.type v
      else d
    | none => d

/-- The orm-definitions loop of MySQLDriver._getColDefs: a declared field is
searched among the live columns BY ITS NAME ONLY; a miss contributes a
CREATE/ADD definition (the update list stays empty: the data-type
comparison that once set `shouldUpdate` is commented out in the source). -/
def mysqlColDefs (model : ModelDef) (columns : List MyCol) :
    List (String × FieldDef) → List String × List String
  | [] => ([], [])
  | (key, f) :: rest =>
    let out := mysqlColDefs model columns rest
    let found := columns.find? (fun c => c.name == key)
    let d := mysqlColDef model key f
    match found with
    | none => (d :: out.1, out.2)
    | some _ => out

/-- MySQLDriver.prepare: no live columns issues CREATE TABLE (with index
clauses); otherwise the ADD/MODIFY operations are batched into a single
ALTER TABLE, and no statement is issued when there are none. -/
def mysqlPrepare (model : ModelDef) (name : String) (charset : String)
    (columns : List MyCol) : List String :=
  let defs := mysqlColDefs model columns model.fields
  if columns.isEmpty then
    let create := defs.1
      ++ ["primary key (" ++ createIndex model.primary.toList ++ ")"]
      ++ model.unique.map (fun k => "unique index (" ++ createIndex k.toList ++ ")")
      ++ model.foreign.map (fun p =>
          "foreign key (" ++ backtick p.1 ++ ") references " ++ escapeId p.2.1
            ++ " (" ++ backtick p.2.2 ++ ")")
    ["CREATE TABLE " ++ escapeId name ++ " (" ++ joinSep "," create
      ++ ") COLLATE = \x27" ++ charset ++ "\x27"]
  else
    let operations := defs.1.map (fun d => "ADD " ++ d)
      ++ defs.2.map (fun d => "MODIFY " ++ d)
    if operations.isEmpty then []
    else ["ALTER TABLE " ++ escapeId name ++ " " ++ joinSep "," operations]

/-- The live columns the MySQL CREATE TABLE produces. -/
def mysqlColsOf (model : ModelDef) : List MyCol :=
  model.fields.map (fun p => ⟨p.1, getTypeDefinition p.2⟩)

/-! ## Claim C3 -/

/-- A `find?` that can only succeed at one element returns that element. -/
theorem find?_unique {α : Type} {p : α → Bool} {l : List α} {x : α}
    (hmem : x ∈ l) (hx : p x = true) (huniq : ∀ y ∈ l, p y = true → y = x) :
    l.find? p = some x := by
  induction l with
  | nil => cases hmem
  | cons a rest ih =>
    by_cases ha : p a = true
    · have := huniq a (List.mem_cons_self a rest) ha
      subst this
      simp [List.find?_cons, ha]
    · have hne : x ≠ a := fun h => ha (h ▸ hx)
      have hmem' : x ∈ rest := by
        cases List.mem_cons.mp hmem with
        | inl h => exact absurd h hne
        | inr h => exact h
      have ha' : p a = false := by simpa using ha
      rw [List.find?_cons, ha']
      exact ih hmem' (fun y hy hpy => huniq y (List.mem_cons_of_mem a hy) hpy)

/-- Two entries of an association list with `Nodup` keys and the same key
coincide. -/
theorem assoc_nodup_keys_eq {l : List (String × FieldDef)} {k : String} {f g : FieldDef}
    (h : (l.map Prod.fst).Nodup) (h1 : (k, f) ∈ l) (h2 : (k, g) ∈ l) : f = g := by
  induction l with
  | nil => cases h1
  | cons a rest ih =>
    rw [List.map_cons, List.nodup_cons] at h
    cases List.mem_cons.mp h1 with
    | inl hf =>
      cases List.mem_cons.mp h2 with
      | inl hg =>
        rw [← hf] at hg
        exact (Prod.ext_iff.mp hg).2.symm
      | inr hg =>
        exfalso
        apply h.1
        have hk : k ∈ rest.map Prod.fst := List.mem_map_of_mem Prod.fst hg
        rw [← hf]
        exact hk
    | inr hf =>
      cases List.mem_cons.mp h2 with
      | inl hg =>
        exfalso
        apply h.1
        have hk : k ∈ rest.map Prod.fst := List.mem_map_of_mem Prod.fst hf
        rw [← hg]
        exact hk
      | inr hg => exact ih h.2 hf hg

/-- The field loop of the SQLite prepare emits neither ADD nor a migration
when every non-deprecated field finds a live column bearing exactly its
name and declared type (and no drop list is given). -/
theorem fieldScan_no_ddl (model : ModelDef) (cols : List LiveCol)
    (fields' : List (String × FieldDef))
    (h : ∀ p ∈ fields', p.2.deprecated = false →
      ∃ c, cols.find? (fun c => (p.1 :: p.2.legacy).contains c.name) = some c
        ∧ c.name = p.1 ∧ c.type = getTypeDef p.2.type) :
    (fieldScan model cols none fields').alter = []
    ∧ (fieldScan model cols none fields').shouldMigrate = false := by
  induction fields' with
  | nil => exact ⟨rfl, rfl⟩
  | cons p rest ih =>
    have ihr := ih (fun q hq => h q (List.mem_cons_of_mem p hq))
    obtain ⟨key, f⟩ := p
    by_cases hdep : f.deprecated = true
    · simp only [fieldScan, hdep, if_true]
      exact ⟨ihr.1, by simp [ihr.2]⟩
    · have hdep' : f.deprecated = false := by simpa using hdep
      obtain ⟨c, hfind, hname, htype⟩ := h (key, f) (List.mem_cons_self _ rest) hdep'
      simp only [fieldScan, hdep', Bool.false_eq_true, if_false, hfind]
      refine ⟨ihr.1, ?_⟩
      simp [hname, htype, ihr.2]

/-- The MySQL orm-definitions loop contributes nothing when every declared
field name is present among the live columns. -/
theorem mysqlColDefs_no_ops (model : ModelDef) (columns : List MyCol)
    (fields' : List (String × FieldDef))
    (h : ∀ p ∈ fields', ∃ c ∈ columns, c.name = p.1) :
    mysqlColDefs model columns fields' = ([], []) := by
  induction fields' with
  | nil => rfl
  | cons p rest ih =>
    obtain ⟨c, hc, hcname⟩ := h p (List.mem_cons_self p rest)
    have hsome : (columns.find? (fun c => c.name == p.1)).isSome := by
      rw [List.find?_isSome]
      exact ⟨c, hc, by simp [hcname]⟩
    obtain ⟨key, f⟩ := p
    simp only [fieldScan, mysqlColDefs]
    cases hfind : columns.find? (fun c => c.name == key) with
    | none => rw [hfind] at hsome; cases hsome
    | some c2 => exact ih (fun q hq => h q (List.mem_cons_of_mem _ hq))

/-- Claim C3: prepare is idempotent.  A first SQLite prepare against an
empty live table issues a single CREATE TABLE; a second prepare against
the table it created issues no DDL and leaves the table unchanged, and a
MySQL prepare against the columns its own CREATE produced likewise issues
no statement.  The model is assumed well-formed: at least one active
field, distinct active field names, and no active field name doubling as
a legacy alias. -/
theorem prepare_idempotent (model : ModelDef) (table charset : String)
    (rows : List (List Value))
    (h1 : activeFields model ≠ [])
    (h2 : ((activeFields model).map Prod.fst).Nodup)
    (h3 : ∀ p ∈ activeFields model, ∀ q ∈ activeFields model, ¬ p.1 ∈ q.2.legacy) :
    (∃ sql, prepareSQLite model table none ⟨[], []⟩
      = .ok ([sql], ⟨createdCols model, []⟩))
    ∧ prepareSQLite model table none ⟨createdCols model, rows⟩
      = .ok ([], ⟨createdCols model, rows⟩)
    ∧ mysqlPrepare model table charset (mysqlColsOf model) = [] := by
  have hfind : ∀ p ∈ activeFields model,
      (createdCols model).find? (fun c => (p.1 :: p.2.legacy).contains c.name)
        = some (declaredLiveCol model p.1 p.2) := by
    intro p hp
    have hfm := List.find?_map (fun q : String × FieldDef => declaredLiveCol model q.1 q.2)
      (activeFields model)
      (p := fun c => (p.1 :: p.2.legacy).contains c.name)
    have hinner : (activeFields model).find?
        ((fun c => (p.1 :: p.2.legacy).contains c.name)
          ∘ fun q => declaredLiveCol model q.1 q.2) = some p := by
      apply find?_unique hp
      · simp [declaredLiveCol]
      · intro q hq hpq
        have hmem : (declaredLiveCol model q.1 q.2).name ∈ p.1 :: p.2.legacy :=
          List.elem_iff.mp hpq
        simp only [declaredLiveCol, List.mem_cons] at hmem
        cases hmem with
        | inl hkey =>
          obtain ⟨kq, fq⟩ := q
          obtain ⟨kp, fp⟩ := p
          simp only at hkey
          subst hkey
          have := assoc_nodup_keys_eq h2 hq hp
          rw [this]
        | inr hleg => exact absurd hleg (h3 q hq p hp)
    rw [createdCols, hfm, hinner]
    rfl
  have hscan := fieldScan_no_ddl model (createdCols model) model.fields ?hfields
  case hfields =>
    intro p hp hdep
    have hact : p ∈ activeFields model := by
      rw [activeFields, List.mem_filter]
      exact ⟨hp, by simp [hdep]⟩
    exact ⟨declaredLiveCol model p.1 p.2, hfind p hact, rfl, rfl⟩
  have hcols : createdCols model ≠ [] := by
    rw [createdCols]
    simpa using h1
  have hcolsE : (createdCols model).isEmpty = false := by
    simpa [List.isEmpty_eq_true] using hcols
  refine ⟨?_, ?_, ?_⟩
  · simp only [prepareSQLite, List.isEmpty_nil, if_true]
    exact ⟨_, rfl⟩
  · simp only [prepareSQLite, hcolsE, Bool.false_eq_true, if_false,
      hscan.1, hscan.2, List.isEmpty_nil, Bool.not_true]
  · have hfields : model.fields ≠ [] := by
      intro hnil
      apply h1
      rw [activeFields, hnil]
      rfl
    have hcols2 : (mysqlColsOf model).isEmpty = false := by
      rw [mysqlColsOf]
      simpa [List.isEmpty_eq_true] using hfields
    have hdefs := mysqlColDefs_no_ops model (mysqlColsOf model) model.fields ?hmy
    case hmy =>
      intro p hp
      exact ⟨⟨p.1, getTypeDefinition p.2⟩, List.mem_map_of_mem _ hp, rfl⟩
    simp [mysqlPrepare, hcols2, hdefs]

/-- Witness for C3: a two-field model with auto-increment primary key. -/
theorem prepare_idempotent_witness :
    prepareSQLite
      ⟨[("id", { type := FieldType.unsigned }),
        ("text", { type := FieldType.string })],
        StrOrList.one "id", true, [], []⟩
      "bar" none
      ⟨createdCols ⟨[("id", { type := FieldType.unsigned }),
        ("text", { type := FieldType.string })],
        StrOrList.one "id", true, [], []⟩,
        [[Value.vInt 1, Value.vStr "pku"]]⟩
      = .ok ([], ⟨createdCols ⟨[("id", { type := FieldType.unsigned }),
        ("text", { type := FieldType.string })],
        StrOrList.one "id", true, [], []⟩,
        [[Value.vInt 1, Value.vStr "pku"]]⟩)
    ∧ mysqlPrepare
      ⟨[("id", { type := FieldType.unsigned }),
        ("text", { type := FieldType.string })],
        StrOrList.one "id", true, [], []⟩
      "bar" "utf8mb4_general_ci"
      (mysqlColsOf ⟨[("id", { type := FieldType.unsigned }),
        ("text", { type := FieldType.string })],
        StrOrList.one "id", true, [], []⟩) = [] := by
  have h := prepare_idempotent
    ⟨[("id", { type := FieldType.unsigned }),
      ("text", { type := FieldType.string })],
      StrOrList.one "id", true, [], []⟩
    "bar" "utf8mb4_general_ci" [[Value.vInt 1, Value.vStr "pku"]]
    (by decide) (by decide) (by decide)
  exact ⟨h.2.1, h.2.2⟩

/-! ## Claim C5 -/

/-- Counterexample to claim C5: in the MySQL driver a declared field `text`
with legacy alias `caption` is NOT matched to a live `caption` column — the
search compares live column names against the field name only — so prepare
ADDs a fresh `text` column instead of renaming, and the `caption` data does
not move. -/
theorem legacy_alias_rename_cex :
    (mysqlColDefs
      ⟨[("text", { type := FieldType.string, legacy := ["caption"] })],
        StrOrList.one "id", false, [], []⟩
      [⟨"caption", "varchar(255)"⟩]
      [("text", { type := FieldType.string, legacy := ["caption"] })]).1
      = ["`text` varchar(255) null"]
    ∧ mysqlPrepare
      ⟨[("text", { type := FieldType.string, legacy := ["caption"] })],
        StrOrList.one "id", false, [], []⟩
      "bar" "utf8mb4_general_ci" [⟨"caption", "varchar(255)"⟩]
      = ["ALTER TABLE `bar` ADD `text` varchar(255) null"] := by
  refine ⟨by decide, by decide⟩

/-- A Forall₂ hypothesis yields a related witness for every left element. -/
theorem forall₂_left_prop {α β : Type} {R : α → β → Prop} {l1 : List α} {l2 : List β}
    (h : List.Forall₂ R l1 l2) : ∀ a ∈ l1, ∃ b, R a b := by
  induction h with
  | nil => intro a ha; cases ha
  | cons hab _ ih =>
    intro a ha
    cases List.mem_cons.mp ha with
    | inl he => exact ⟨_, he ▸ hab⟩
    | inr ht => exact ih a ht

/-- The field loop of the SQLite prepare in a full-rename situation: every
declared field is live (found at its own position), so the loop emits no
ADD, maps each live name to its declared name in order, and requests a
migration exactly when some live name or type differs from its declared
counterpart. -/
theorem fieldScan_rename (model : ModelDef) (colsFull : List LiveCol)
    (fields' : List (String × FieldDef)) (cols' : List LiveCol)
    (hfa : List.Forall₂ (fun (p : String × FieldDef) (c : LiveCol) =>
      p.2.deprecated = false
      ∧ colsFull.find? (fun c2 => (p.1 :: p.2.legacy).contains c2.name) = some c)
      fields' cols') :
    fieldScan model colsFull none fields' =
      ⟨fields'.map (fun p => sqliteColDef model p.1 p.2), [],
       (cols'.map (fun c => c.name)).zip (fields'.map Prod.fst),
       (fields'.zip cols').any (fun pc =>
         pc.2.name != pc.1.1 || pc.2.type != getTypeDef pc.1.2.type)⟩ := by
  induction hfa with
  | nil => rfl
  | cons hpc hrest ih =>
    rename_i p c fieldsRest colsRest
    obtain ⟨key, f⟩ := p
    simp only at hpc
    simp only [fieldScan, hpc.1, Bool.false_eq_true, if_false, hpc.2, ih]
    rfl

/-- The preserve-old-columns loop keeps nothing when every live column is
already mapped. -/
theorem preserveScan_all_mapped (mapping0 : List (String × String))
    (cols'' : List LiveCol)
    (h : ∀ c ∈ cols'', mapping0.any (fun p => p.1 == c.name) = true) :
    preserveScan mapping0 [] cols'' = ([], []) := by
  induction cols'' with
  | nil => rfl
  | cons c rest ih =>
    have hch := h c (List.mem_cons_self c rest)
    have iht := ih (fun x hx => h x (List.mem_cons_of_mem c hx))
    simp only [preserveScan, iht, hch, Bool.true_or, if_true]

/-- Selecting every column of a table by name, in column order, reproduces
the row (column names distinct, row of matching width). -/
theorem selects_identity (cols : List LiveCol) (r : List Value)
    (hnd : (cols.map (fun c => c.name)).Nodup) (hlen : r.length = cols.length) :
    (cols.map (fun c => c.name)).map (fun n => selectValue cols r n) = r := by
  induction cols generalizing r with
  | nil =>
    cases r with
    | nil => rfl
    | cons v r' => simp at hlen
  | cons c cols' ih =>
    cases r with
    | nil => simp at hlen
    | cons v r' =>
      rw [List.map_cons, List.map_cons]
      rw [List.map_cons, List.nodup_cons] at hnd
      have hhead : selectValue (c :: cols') (v :: r') c.name = v := by
        simp [selectValue, List.find?_cons]
      have hstep : ∀ n ∈ cols'.map (fun c => c.name),
          selectValue (c :: cols') (v :: r') n = selectValue cols' r' n := by
        intro n hn
        have hne : (c.name == n) = false := by
          rw [beq_eq_false_iff_ne]
          exact fun h => hnd.1 (h ▸ hn)
        simp only [selectValue, List.zip_cons_cons, List.find?_cons, hne]
      rw [hhead, List.map_eq_map_iff.mpr hstep]
      rw [ih r' hnd.2 (by simpa using hlen)]

/-- An unmatched MySQL field contributes its ADD definition. -/
theorem mysql_unmatched_add (model2 : ModelDef) (columns : List MyCol)
    (fields' : List (String × FieldDef)) (k : String) (f : FieldDef)
    (hmem : (k, f) ∈ fields')
    (habs : columns.any (fun c => c.name == k) = false) :
    mysqlColDef model2 k f ∈ (mysqlColDefs model2 columns fields').1 := by
  induction fields' with
  | nil => cases hmem
  | cons p rest ih =>
    obtain ⟨key2, f2⟩ := p
    cases List.mem_cons.mp hmem with
    | inl he =>
      have hk : key2 = k := (Prod.ext_iff.mp he.symm).1
      have hf : f2 = f := (Prod.ext_iff.mp he.symm).2
      subst hk
      subst hf
      have hfind : columns.find? (fun c => c.name == key2) = none := by
        rw [List.find?_eq_none]
        intro x hx
        exact fun hb => (List.any_eq_false.mp habs x hx) hb
      simp only [mysqlColDefs, hfind]
      exact List.mem_cons_self _ _
    | inr ht =>
      have ihv := ih ht
      simp only [mysqlColDefs]
      cases hfind : columns.find? (fun c => c.name == key2) with
      | none => exact List.mem_cons_of_mem _ ihv
      | some c2 => exact ihv

/-- Claim C5 as amended: in the SQLite driver, prepare searches live columns
by field name OR any declared legacy alias; in a full-rename situation
(each declared field found at its own live column, some live column bearing
a legacy name rather than the declared name) it rebuilds the table through
the temp-table migration, after which the columns bear the declared names
and every row's data is preserved unchanged.  The MySQL driver instead
searches by field name only, so a field whose legacy alias names a live
column is not matched and is ADDed as a fresh column rather than renamed. -/
theorem legacy_alias_rename_amended
    (model : ModelDef) (table : String) (cols : List LiveCol) (rows : List (List Value))
    (hfa : List.Forall₂ (fun (p : String × FieldDef) (c : LiveCol) =>
      p.2.deprecated = false
      ∧ cols.find? (fun c2 => (p.1 :: p.2.legacy).contains c2.name) = some c)
      model.fields cols)
    (hnames : (cols.map (fun c => c.name)).Nodup)
    (hrows : ∀ r ∈ rows, r.length = cols.length)
    (hmig : (model.fields.zip cols).any (fun pc =>
      pc.2.name != pc.1.1 || pc.2.type != getTypeDef pc.1.2.type) = true) :
    ((createdCols model).map (fun c => c.name) = model.fields.map Prod.fst)
    ∧ (∃ s1 s2 s3 s4, prepareSQLite model table none ⟨cols, rows⟩
        = .ok ([s1, s2, s3, s4], ⟨createdCols model, rows⟩))
    ∧ (∀ (model2 : ModelDef) (columns : List MyCol) (k : String) (f : FieldDef),
        (k, f) ∈ model2.fields → columns.any (fun c => c.name == k) = false →
        mysqlColDef model2 k f ∈ (mysqlColDefs model2 columns model2.fields).1) := by
  have hdep : ∀ p ∈ model.fields, p.2.deprecated = false := by
    intro p hp
    obtain ⟨b, hb⟩ := forall₂_left_prop hfa p hp
    exact hb.1
  have hact : activeFields model = model.fields :=
    List.filter_eq_self.mpr (fun p hp => by simp [hdep p hp])
  have hlen : model.fields.length = cols.length := hfa.length_eq
  have hscan := fieldScan_rename model cols model.fields cols hfa
  have hfst : ((cols.map (fun c => c.name)).zip (model.fields.map Prod.fst)).map Prod.fst
      = cols.map (fun c => c.name) := by
    apply List.map_fst_zip
    simp [hlen]
  have hnamecols : (createdCols model).map (fun c => c.name) = model.fields.map Prod.fst := by
    rw [createdCols, hact, List.map_map]
    rfl
  refine ⟨hnamecols, ?_, ?_⟩
  · have hcolsne : cols ≠ [] := by
      intro hnil
      subst hnil
      rw [List.zip_nil_right] at hmig
      simp at hmig
    have hcolsE : cols.isEmpty = false := by
      simpa [List.isEmpty_eq_true] using hcolsne
    have hmapped : ∀ c ∈ cols,
        ((cols.map (fun c => c.name)).zip (model.fields.map Prod.fst)).any
          (fun p => p.1 == c.name) = true := by
      intro c hc
      rw [List.any_eq_true]
      have hcn : c.name ∈ ((cols.map (fun c => c.name)).zip (model.fields.map Prod.fst)).map Prod.fst := by
        rw [hfst]
        exact List.mem_map_of_mem _ hc
      obtain ⟨p, hp, hpeq⟩ := List.mem_map.mp hcn
      exact ⟨p, hp, by simp [hpeq]⟩
    have hpres := preserveScan_all_mapped
      ((cols.map (fun c => c.name)).zip (model.fields.map Prod.fst)) cols hmapped
    have hmlen : ((cols.map (fun c => c.name)).zip (model.fields.map Prod.fst)).length
        = (model.fields.map (fun p => sqliteColDef model p.1 p.2)).length := by
      simp [hlen]
    have hrowsmap : rows.map (fun r =>
        ((cols.map (fun c => c.name)).zip (model.fields.map Prod.fst)).map
          (fun p => selectValue cols r p.1)) = rows := by
      have hid : ∀ r ∈ rows, ((cols.map (fun c => c.name)).zip (model.fields.map Prod.fst)).map
          (fun p => selectValue cols r p.1) = r := by
        intro r hr
        have h1 : ((cols.map (fun c => c.name)).zip (model.fields.map Prod.fst)).map
            (fun p => selectValue cols r p.1)
            = (((cols.map (fun c => c.name)).zip (model.fields.map Prod.fst)).map Prod.fst).map
              (fun n => selectValue cols r n) := by
          rw [List.map_map]
          rfl
        rw [h1, hfst]
        exact selects_identity cols r hnames (hrows r hr)
      calc rows.map (fun r =>
          ((cols.map (fun c => c.name)).zip (model.fields.map Prod.fst)).map
            (fun p => selectValue cols r p.1))
          = rows.map id := List.map_eq_map_iff.mpr (fun r hr => hid r hr)
        _ = rows := List.map_id rows
    have hfilter : cols.filter (fun c =>
        !(((cols.map (fun c => c.name)).zip (model.fields.map Prod.fst)).any
            (fun p => p.1 == c.name) || ([] : List String).contains c.name)) = [] := by
      apply List.filter_eq_nil_iff.mpr
      intro c hc
      simp [hmapped c hc]
    simp only [prepareSQLite, hcolsE, Bool.false_eq_true, if_false, hscan, hmig, if_true,
      Option.getD_none, hpres, List.append_nil, hmlen, if_pos rfl]
    simp only [migratedCols, hfilter, List.append_nil, hrowsmap]
    exact ⟨_, _, _, _, rfl⟩
  · intro model2 columns k f hmem habs
    exact mysql_unmatched_add model2 columns model2.fields k f hmem habs

/-- Witness for C5 (amended): the declared `text` field with legacy alias
`caption` against a live table whose column is still named `caption`; after
prepare the columns bear the declared names and the row data is intact. -/
theorem legacy_alias_rename_amended_witness :
    ((createdCols ⟨[("id", { type := FieldType.unsigned }),
        ("text", { type := FieldType.string, legacy := ["caption"] })],
        StrOrList.one "id", false, [], []⟩).map (fun c => c.name)
      = [("id", ({ type := FieldType.unsigned } : FieldDef)),
        ("text", { type := FieldType.string, legacy := ["caption"] })].map Prod.fst)
    ∧ (∃ s1 s2 s3 s4, prepareSQLite
        ⟨[("id", { type := FieldType.unsigned }),
          ("text", { type := FieldType.string, legacy := ["caption"] })],
          StrOrList.one "id", false, [], []⟩
        "bar" none
        ⟨[⟨"id", "INTEGER", false, none, false⟩, ⟨"caption", "TEXT", false, none, false⟩],
          [[Value.vInt 1, Value.vStr "hello"]]⟩
        = .ok ([s1, s2, s3, s4],
          ⟨createdCols ⟨[("id", { type := FieldType.unsigned }),
            ("text", { type := FieldType.string, legacy := ["caption"] })],
            StrOrList.one "id", false, [], []⟩,
          [[Value.vInt 1, Value.vStr "hello"]]⟩)) := by
  have h := legacy_alias_rename_amended
    ⟨[("id", { type := FieldType.unsigned }),
      ("text", { type := FieldType.string, legacy := ["caption"] })],
      StrOrList.one "id", false, [], []⟩
    "bar"
    [⟨"id", "INTEGER", false, none, false⟩, ⟨"caption", "TEXT", false, none, false⟩]
    [[Value.vInt 1, Value.vStr "hello"]]
    (List.Forall₂.cons ⟨rfl, by decide⟩
      (List.Forall₂.cons ⟨rfl, by decide⟩ List.Forall₂.nil))
    (by decide) (by decide) (by decide)
  exact ⟨h.1, h.2.1⟩
